import Mathlib

/-!
Verification of the data-fetch/cache layer and the filter/search pipeline of
the icon-365 repository (`src/api.ts`, later revision, together with
`src/types.ts`).

The TypeScript source is embedded shallowly:

* JavaScript strings are Lean `String`s (lists of characters); the handful of
  string primitives the source uses (`includes`, `endsWith`, `split`,
  `toLowerCase`, `trim`) are re-implemented below by structural recursion on
  the character list so that every definition evaluates inside the kernel.
  `toLowerCase` is modelled as ASCII lowercasing (every string the source
  compares against is ASCII).
* `Array.prototype.sort` (guaranteed stable by the ECMAScript spec) is
  modelled as a stable merge sort: `jsSortBy` below, a fuel-based structural
  presentation proven equal to `List.mergeSort`.
* Fuzzy-search relevance scores (floating point numbers in the source) are
  modelled as rationals; the fuzzy matcher itself is third-party code and is
  passed in as a function parameter.
* `fetch` responses are an explicit environment `Nat → FetchOutcome β`
  giving the outcome of each successive network attempt.
* `localStorage` is an explicit record threaded through the fetch layer;
  a `writable` flag models the best-effort `try { setItem } catch` writes.
-/

namespace Icon365

/-! ### Stable sort: fuel-based structural merge sort, equal to `List.mergeSort` -/

/-- Structural (fuel-indexed) version of `List.merge`. -/
def mergeFuel (le : α → α → Bool) : Nat → List α → List α → List α
  | _, [], ys => ys
  | _, xs, [] => xs
  | 0, xs, ys => xs ++ ys
  | f + 1, x :: xs, y :: ys =>
    if le x y then x :: mergeFuel le f xs (y :: ys) else y :: mergeFuel le f (x :: xs) ys

/-- Structural (fuel-indexed) version of `List.mergeSort`, splitting the list
in two contiguous halves exactly as `List.splitInTwo` does. -/
def mergeSortFuel (le : α → α → Bool) : Nat → List α → List α
  | _, [] => []
  | _, [a] => [a]
  | 0, l => l
  | f + 1, a :: b :: xs =>
    let n := ((a :: b :: xs).length + 1) / 2
    mergeFuel le (a :: b :: xs).length
      (mergeSortFuel le f ((a :: b :: xs).take n))
      (mergeSortFuel le f ((a :: b :: xs).drop n))

/-- The model of JavaScript `Array.prototype.sort` with comparator-induced
boolean order `le`: a stable merge sort. -/
def jsSortBy (le : α → α → Bool) (l : List α) : List α :=
  mergeSortFuel le l.length l

theorem mergeFuel_eq (le : α → α → Bool) :
    ∀ (f : Nat) (xs ys : List α), xs.length + ys.length ≤ f →
      mergeFuel le f xs ys = List.merge xs ys le := by
  intro f
  induction f with
  | zero =>
    intro xs ys h
    match xs, ys with
    | [], ys => simp [mergeFuel]
    | x :: xs, ys => simp at h
  | succ f ih =>
    intro xs ys h
    match xs, ys with
    | [], ys => simp [mergeFuel]
    | x :: xs, [] => simp [mergeFuel]
    | x :: xs, y :: ys =>
      simp only [List.length_cons] at h
      have ih1 := ih xs (y :: ys) (by simp only [List.length_cons]; omega)
      have ih2 := ih (x :: xs) ys (by simp only [List.length_cons]; omega)
      simp only [mergeFuel, List.merge, ih1, ih2]

theorem mergeSortFuel_eq (le : α → α → Bool) :
    ∀ (f : Nat) (l : List α), l.length ≤ f →
      mergeSortFuel le f l = l.mergeSort le := by
  intro f
  induction f with
  | zero =>
    intro l h
    match l with
    | [] => simp [mergeSortFuel]
    | [a] => simp at h
    | a :: b :: xs => simp at h
  | succ f ih =>
    intro l h
    match l with
    | [] => simp [mergeSortFuel]
    | [a] => simp [mergeSortFuel]
    | a :: b :: xs =>
      rw [List.mergeSort]
      simp only [mergeSortFuel]
      simp only [List.length_cons] at h
      have h1 : ((a :: b :: xs).take (((a :: b :: xs).length + 1) / 2)).length ≤ f := by
        simp only [List.length_take, List.length_cons]; omega
      have h2 : ((a :: b :: xs).drop (((a :: b :: xs).length + 1) / 2)).length ≤ f := by
        simp only [List.length_drop, List.length_cons]; omega
      have hlen : (((a :: b :: xs).take (((a :: b :: xs).length + 1) / 2)).mergeSort le).length +
          (((a :: b :: xs).drop (((a :: b :: xs).length + 1) / 2)).mergeSort le).length ≤
            (a :: b :: xs).length := by
        simp only [List.length_mergeSort, List.length_take, List.length_drop,
          List.length_cons]
        omega
      rw [ih _ h1, ih _ h2, mergeFuel_eq le _ _ _ hlen]
      simp only [List.splitInTwo_fst, List.splitInTwo_snd, List.length_cons]

theorem jsSortBy_eq (le : α → α → Bool) (l : List α) :
    jsSortBy le l = l.mergeSort le :=
  mergeSortFuel_eq le l.length l (Nat.le_refl _)

/-! ### String primitives (structural, kernel-evaluable) -/

/-- ASCII lowercasing of one character, the effect of
`String.prototype.toLowerCase` on the ASCII strings this program handles. -/
def asciiLower (c : Char) : Char :=
  if 65 ≤ c.toNat ∧ c.toNat ≤ 90 then Char.ofNat (c.toNat + 32) else c

/-- Model of `String.prototype.toLowerCase` (ASCII range). -/
def lowerStr (s : String) : String :=
  ⟨s.data.map asciiLower⟩

/-- Does `needle` occur as a contiguous run inside the character list?
Model of `String.prototype.includes`. -/
def hasInfix (needle : List Char) : List Char → Bool
  | [] => needle.isEmpty
  | c :: t => needle.isPrefixOf (c :: t) || hasInfix needle t

/-- Model of `s.includes(sub)`. -/
def strIncludes (s sub : String) : Bool :=
  hasInfix sub.data s.data

/-- Model of `s.endsWith(suffix)` (used via `.png` / `.svg` checks). -/
def strEndsWith (s suf : String) : Bool :=
  suf.data.isSuffixOf s.data

/-- Model of `String.prototype.split` with a one-character separator
(the source only ever splits on `'/'`, `'.'` and `'\n'`). -/
def splitOnChar (sep : Char) : List Char → List (List Char)
  | [] => [[]]
  | c :: t =>
    let r := splitOnChar sep t
    if c == sep then [] :: r
    else
      match r with
      | [] => [[c]]
      | h :: t2 => (c :: h) :: t2

/-- Model of `s.split(sep)` as a list of strings. -/
def splitStr (sep : Char) (s : String) : List String :=
  (splitOnChar sep s.data).map (fun l => ⟨l⟩)

/-- Is the character one of the whitespace characters `String.prototype.trim`
removes (restricted to the ASCII ones)? -/
def isJsWhitespace (c : Char) : Bool :=
  c == ' ' || c == '\t' || c == '\n' || c == '\r'

/-- Holds when `s.trim() === ''`, i.e. the string is empty or whitespace-only; this is the
(negated) branch condition `searchQuery.trim()` of the source. -/
def allWhitespace (s : String) : Bool :=
  s.data.all isJsWhitespace

/-- Code-point lexicographic comparison `a ≤ b` on character lists.
`filename.localeCompare` of the source is locale sensitive; it is modelled
here as the code-point lexicographic comparison (its behavior under the
default collation on the ASCII filenames of the catalog), which is also the
reading of the specification's "ascending lexical order". -/
def charListLE : List Char → List Char → Bool
  | [], _ => true
  | _ :: _, [] => false
  | a :: as, b :: bs =>
    if a.toNat < b.toNat then true
    else if b.toNat < a.toNat then false
    else charListLE as bs

theorem charListLE_total : ∀ a b : List Char, charListLE a b || charListLE b a := by
  intro a
  induction a with
  | nil => intro b; simp [charListLE]
  | cons x xs ih =>
    intro b
    match b with
    | [] => simp [charListLE]
    | y :: ys =>
      simp only [charListLE]
      rcases Nat.lt_trichotomy x.toNat y.toNat with h | h | h
      · simp [h]
      · simp only [h, Nat.lt_irrefl, if_false]
        simpa using ih ys
      · simp [h, Nat.lt_asymm h]

theorem charListLE_trans :
    ∀ a b c : List Char, charListLE a b = true → charListLE b c = true →
      charListLE a c = true := by
  intro a
  induction a with
  | nil => intro b c _ _; simp [charListLE]
  | cons x xs ih =>
    intro b c hab hbc
    match b, c with
    | [], _ => simp [charListLE] at hab
    | _ :: _, [] => simp [charListLE] at hbc
    | y :: ys, z :: zs =>
      simp only [charListLE] at hab hbc ⊢
      split at hab
      · rename_i hxy
        split at hbc
        · rename_i hyz
          simp [Nat.lt_trans hxy hyz]
        · split at hbc
          · exact absurd hbc (by simp)
          · rename_i hzy hyz
            have : y.toNat = z.toNat := by omega
            simp [this ▸ hxy]
      · split at hab
        · exact absurd hab (by simp)
        · rename_i hxy hyx
          have hxyEq : x.toNat = y.toNat := by omega
          split at hbc
          · rename_i hyz
            simp [hxyEq ▸ hyz]
          · split at hbc
            · exact absurd hbc (by simp)
            · rename_i hzy hyz
              have hyzEq : y.toNat = z.toNat := by omega
              have h1 : ¬ x.toNat < z.toNat := by omega
              have h2 : ¬ z.toNat < x.toNat := by omega
              simp [h1, h2]
              exact ih ys zs hab hbc

/-- If a list extended on the left occurs as a prefix, the suffix part occurs
as an infix. -/
theorem hasInfix_of_append_isPrefixOf (pre needle : List Char) :
    ∀ l : List Char, (pre ++ needle).isPrefixOf l = true → hasInfix needle l = true := by
  induction pre with
  | nil =>
    intro l h
    simp only [List.nil_append] at h
    match l with
    | [] =>
      have : needle = [] := by
        cases needle with
        | nil => rfl
        | cons a as => simp [List.isPrefixOf] at h
      simp [hasInfix, this]
    | c :: t => simp [hasInfix, h]
  | cons p ps ih =>
    intro l h
    match l with
    | [] => simp [List.isPrefixOf] at h
    | c :: t =>
      simp only [List.cons_append, List.isPrefixOf, Bool.and_eq_true] at h
      have := ih t h.2
      simp [hasInfix, this]

/-- An occurrence of `pre ++ needle` yields an occurrence of `needle`. -/
theorem hasInfix_mono (pre needle : List Char) :
    ∀ l : List Char, hasInfix (pre ++ needle) l = true → hasInfix needle l = true := by
  intro l
  induction l with
  | nil =>
    intro h
    simp only [hasInfix, List.isEmpty_eq_true, List.append_eq_nil] at h
    simp [hasInfix, h.2]
  | cons c t ih =>
    intro h
    simp only [hasInfix, Bool.or_eq_true] at h
    rcases h with h | h
    · exact hasInfix_of_append_isPrefixOf pre needle (c :: t) h
    · simp [hasInfix, ih h]

/-! ### Data model (`src/types.ts` and the record shape built in `src/api.ts`) -/

/-- One entry of the GitHub tree listing (`GitHubTreeItem`). -/
structure GitHubTreeItem where
  path : String
  type : String
  size : Option Nat
deriving DecidableEq, Repr

/-- The tree listing response (`GitHubTreeResponse`); only the `tree` field is
consumed by the parsing code. -/
structure GitHubTreeResponse where
  tree : List GitHubTreeItem
deriving DecidableEq, Repr

/-- One parsed icon record (`IconFile`, later revision: with `isNew` and
`productName`). -/
structure IconFile where
  path : String
  filename : String
  category : String
  size : Nat
  rawUrl : String
  isLegacy : Bool
  isNew : Bool
  extension : String
  productName : String
deriving DecidableEq, Repr

def RAW_CONTENT_BASE : String :=
  "https://raw.githubusercontent.com/loryanstrant/MicrosoftCloudLogos/main/"

/-- Model of `isImageFile`: lower-cased path ends with `.png` or `.svg`. -/
def isImageFile (path : String) : Bool :=
  let ext := lowerStr path
  strEndsWith ext ".png" || strEndsWith ext ".svg"

/-- Model of `detectCategory`: the first `/`-separated path segment. -/
def detectCategory (path : String) : String :=
  let parts := splitStr '/' path
  match parts with
  | [] => "Other"
  | p :: _ => p

/-- The first (leftmost) match of the regex `(\d{4})-(\d{4})` read at the head
of the character list: the parsed second (end-year) group. -/
def yearAt : List Char → Option Nat
  | a :: b :: c :: d :: dash :: e :: f :: g :: h :: _ =>
    if a.isDigit && b.isDigit && c.isDigit && d.isDigit && dash == '-' &&
        e.isDigit && f.isDigit && g.isDigit && h.isDigit then
      some ((e.toNat - 48) * 1000 + (f.toNat - 48) * 100 + (g.toNat - 48) * 10 +
        (h.toNat - 48))
    else none
  | _ => none

/-- Model of `path.match(/(\d{4})-(\d{4})/)`: end year of the leftmost year-range group,
if any (later groups are never reached). -/
def firstYearEnd : List Char → Option Nat
  | [] => none
  | c :: t =>
    match yearAt (c :: t) with
    | some y => some y
    | none => firstYearEnd t

/-- Model of `isLegacyIcon` (later revision).  `currentYear` stands for
`new Date().getFullYear()`. -/
def isLegacyIcon (currentYear : Nat) (path : String) : Bool :=
  let lowerPath := lowerStr path
  if strIncludes lowerPath "zzlegacy" || strIncludes lowerPath "legacy" then
    true
  else
    match firstYearEnd path.data with
    | some endYear => decide (endYear < currentYear)
    | none => false

/-- Model of `inferProductName`: filename with the image extension stripped, `-` and
`_` replaced by spaces, lower-cased. -/
def inferProductName (path : String) : String :=
  let parts := splitStr '/' path
  let filename := parts.getLastD ""
  let lower := lowerStr filename
  let base :=
    if strEndsWith lower ".png" || strEndsWith lower ".svg" then
      (⟨filename.data.take (filename.data.length - 4)⟩ : String)
    else filename
  lowerStr ⟨base.data.map (fun c => if c == '-' || c == '_' then ' ' else c)⟩

/-- Model of `parseIconFiles` (later revision): keep tree blobs that are image files and
build an `IconFile` for each. -/
def parseIconFiles (currentYear : Nat) (tree : GitHubTreeResponse) : List IconFile :=
  (tree.tree.filter (fun item => item.type == "blob" && isImageFile item.path)).map
    (fun item =>
      let pathParts := splitStr '/' item.path
      let filename := pathParts.getLastD ""
      let extension := lowerStr ((splitStr '.' filename).getLastD "")
      let isLegacy := isLegacyIcon currentYear item.path
      { path := item.path
        filename := filename
        category := detectCategory item.path
        size := item.size.getD 0
        rawUrl := RAW_CONTENT_BASE ++ item.path
        isLegacy := isLegacy
        isNew := !isLegacy
        extension := extension
        productName := inferProductName item.path })

/-! ### Network environment and `fetchWithRetry` -/

/-- An HTTP response as far as the source inspects one: status code, parsed
JSON body (`none` models a body whose `response.json()` rejects), and the
`ETag` response header. -/
structure HttpResponse (β : Type) where
  status : Nat
  body : Option β
  etag : Option String
deriving DecidableEq, Repr

/-- Outcome of one `fetch` call: either the promise rejects (network error,
carrying its message) or a response arrives. -/
inductive FetchOutcome (β : Type) where
  | netError (msg : String)
  | resp (r : HttpResponse β)
deriving DecidableEq, Repr

/-- Model of `Response.ok`: status in the range 200–299. -/
def respOk (status : Nat) : Bool :=
  decide (200 ≤ status ∧ status ≤ 299)

/-- What one iteration of the `try { ... }` block of `fetchWithRetry` does. -/
inductive TryStep (β : Type) where
  /-- the block executed `return response` (response ok, or 304). -/
  | done (r : HttpResponse β)
  /-- an exception was raised inside the `try` block; the `catch` clause
  receives it and stores it in `lastError`. -/
  | thrown (msg : String)
  /-- the field `lastError` was assigned directly, without a throw. -/
  | noted (msg : String)
deriving DecidableEq, Repr

/-- The body of the `try`/`catch` of `fetchWithRetry` for one attempt.
Note that the `throw new Error(...)` for a non-429 client error is written
inside the `try` block in the source, so it is caught by the attached
`catch` clause like any other exception. -/
def tryOnce (o : FetchOutcome β) : TryStep β :=
  match o with
  | .netError msg => .thrown msg
  | .resp r =>
    if respOk r.status || r.status == 304 then .done r
    else if 400 ≤ r.status ∧ r.status < 500 ∧ r.status ≠ 429 then
      .thrown ("GitHub API error: " ++ toString r.status)
    else .noted ("GitHub API error: " ++ toString r.status)

/-- Result of `fetchWithRetry`: the returned response or the finally-thrown
error, together with how many `fetch` calls were made and the list of
backoff delays (in milliseconds) slept between attempts. -/
structure RetryOut (β : Type) where
  result : Except String (HttpResponse β)
  attempts : Nat
  delays : List Nat
deriving Repr

/-- The attempt loop of `fetchWithRetry`; `remaining` counts the loop
iterations still to run (`maxRetries - attempt`). -/
def fetchWithRetryGo (net : Nat → FetchOutcome β) (maxRetries : Nat) :
    Nat → Nat → Option String → List Nat → RetryOut β
  | 0, attempt, lastError, delays =>
    { result := .error (lastError.getD "Failed to fetch after retries")
      attempts := attempt
      delays := delays }
  | remaining + 1, attempt, _lastError, delays =>
    match tryOnce (net attempt) with
    | .done r => { result := .ok r, attempts := attempt + 1, delays := delays }
    | .thrown msg =>
      let delays := if attempt < maxRetries - 1 then delays ++ [2 ^ attempt * 1000] else delays
      fetchWithRetryGo net maxRetries remaining (attempt + 1) (some msg) delays
    | .noted msg =>
      let delays := if attempt < maxRetries - 1 then delays ++ [2 ^ attempt * 1000] else delays
      fetchWithRetryGo net maxRetries remaining (attempt + 1) (some msg) delays

/-- Model of `fetchWithRetry(url, options, maxRetries)`.  The url/options pair is
abstracted into the response environment `net`, which gives the outcome of
the `fetch` call of each attempt. -/
def fetchWithRetry (net : Nat → FetchOutcome β) (maxRetries : Nat := 3) : RetryOut β :=
  fetchWithRetryGo net maxRetries maxRetries 0 none []

/-- An attempt that neither returns an ok response nor a 304: it ends in
`lastError` being set (via the catch or via the fall-through assignment). -/
def attemptFails (o : FetchOutcome β) : Prop :=
  match o with
  | .netError _ => True
  | .resp r => respOk r.status = false ∧ r.status ≠ 304

/-! ### Persisted cache and `fetchIcons` -/

/-- Model of `CachedData` (later revision): the persisted cache envelope. -/
structure CachedData where
  timestamp : Nat
  icons : List IconFile
  etag : Option String
deriving DecidableEq, Repr

/-- The slice of `localStorage` the fetch layer touches.  `cache` is the
parsed value under the icon-cache key (`none` also covers a value whose
`JSON.parse` fails, which the source catches).  `writable` models whether
`localStorage.setItem` succeeds; the source swallows write failures. -/
structure LocalStorage where
  cache : Option CachedData
  forceRevalidate : Bool
  writable : Bool
deriving DecidableEq, Repr

/-- The constant `CACHE_TTL`: 7 days in milliseconds (later revision). -/
def CACHE_TTL : Nat := 7 * 24 * 60 * 60 * 1000

/-- Model of `getCachedData` (later revision): returns the envelope (if any) and
whether it needs revalidation (expired or force-flagged; a missing or
unreadable envelope always needs revalidation). -/
def getCachedData (now : Nat) (st : LocalStorage) : Option CachedData × Bool :=
  match st.cache with
  | none => (none, true)
  | some d => (some d, decide (now - d.timestamp > CACHE_TTL) || st.forceRevalidate)

/-- Model of `setCachedData` (later revision): best-effort write of a fresh envelope,
clearing the force-revalidate flag.  A failing write leaves everything
unchanged (the exception is swallowed; the flag removal is not reached). -/
def setCachedData (now : Nat) (icons : List IconFile) (etag : Option String)
    (st : LocalStorage) : LocalStorage :=
  if st.writable then
    { st with cache := some ⟨now, icons, etag⟩, forceRevalidate := false }
  else st

/-- What a `fetchIcons` call produces: the returned list or thrown error, the
final storage state, and the number of `fetch` calls made. -/
structure FetchIconsOut where
  result : Except String (List IconFile)
  store : LocalStorage
  requests : Nat
deriving Repr

/-- The network path of `fetchIcons` (cache absent, expired, or
force-flagged): conditional fetch, 304 handling, parse, cache write, and the
catch-clause fallback to the cached envelope. -/
def fetchIconsNetwork (now currentYear : Nat) (st : LocalStorage)
    (cached : Option CachedData) (net : Nat → FetchOutcome GitHubTreeResponse) :
    FetchIconsOut :=
  let r := fetchWithRetry net 3
  match r.result with
  | .ok resp =>
    if resp.status = 304 then
      match cached with
      | some d => ⟨.ok d.icons, setCachedData now d.icons d.etag st, r.attempts⟩
      | none => ⟨.ok [], st, r.attempts⟩
    else
      match resp.body with
      | some tree =>
        let icons := parseIconFiles currentYear tree
        ⟨.ok icons, setCachedData now icons resp.etag st, r.attempts⟩
      | none =>
        match cached with
        | some d => ⟨.ok d.icons, st, r.attempts⟩
        | none => ⟨.error "invalid JSON", st, r.attempts⟩
  | .error e =>
    match cached with
    | some d => ⟨.ok d.icons, st, r.attempts⟩
    | none => ⟨.error e, st, r.attempts⟩

/-- Model of `fetchIcons` (later revision).  Here `now` stands for `Date.now()` and
`currentYear` for `new Date().getFullYear()`. -/
def fetchIcons (now currentYear : Nat) (st : LocalStorage)
    (net : Nat → FetchOutcome GitHubTreeResponse) : FetchIconsOut :=
  match getCachedData now st with
  | (some d, false) => ⟨.ok d.icons, st, 0⟩
  | (cached, _) => fetchIconsNetwork now currentYear st cached net

/-! ### Recent changes (`fetchRecentChanges`) -/

/-- Model of `RecentChange`. -/
structure RecentChange where
  path : String
  date : String
  message : String
deriving DecidableEq, Repr

/-- One changed file of a commit-detail response. -/
structure CommitFile where
  filename : String
  status : String
deriving DecidableEq, Repr

/-- A commit as the source reads it: `sha`, `commit.message`,
`commit.author.date`, and (in detail responses) the changed files. -/
structure GitHubCommit where
  sha : String
  message : String
  date : String
  files : Option (List CommitFile)
deriving DecidableEq, Repr

/-- First line of a commit message: `message.split('\n')[0]`. -/
def firstLine (s : String) : String :=
  (splitStr '\n' s).headD ""

/-- The `Map` of changes, modelled as an insertion-ordered association list. -/
def mapHas (m : List (String × RecentChange)) (k : String) : Bool :=
  m.any (fun p => p.1 == k)

/-- Processing the changed files of one commit: each image file not already
present is inserted, keyed by filename, with the listing commit's date and
first message line. -/
def recordCommitFiles (c : GitHubCommit) (changes : List (String × RecentChange))
    (files : List CommitFile) : List (String × RecentChange) :=
  files.foldl
    (fun m f =>
      if isImageFile f.filename && !mapHas m f.filename then
        m ++ [(f.filename, ⟨f.filename, c.date, firstLine c.message⟩)]
      else m)
    changes

/-- Processing one commit of the history: fetch its detail (`detail` gives the
parsed body of a successful detail fetch, `none` covering a rejected fetch, a
non-ok status, or an unreadable body, all skipped by the inner catch), then
record its files. -/
def processCommit (detail : String → Option GitHubCommit)
    (changes : List (String × RecentChange)) (c : GitHubCommit) :
    List (String × RecentChange) :=
  match detail c.sha with
  | some d =>
    match d.files with
    | some fs => recordCommitFiles c changes fs
    | none => changes
  | none => changes

/-- The enrichment loop of `fetchRecentChanges`: the first 20 commits of the
history response, processed in order. -/
def buildChanges (detail : String → Option GitHubCommit)
    (commits : List GitHubCommit) : List (String × RecentChange) :=
  (commits.take 20).foldl (processCommit detail) []

/-- Model of `getCachedCommits`: the cached map if present and not expired. -/
def getCachedCommits (now : Nat)
    (cc : Option (Nat × List (String × RecentChange))) :
    Option (List (String × RecentChange)) :=
  match cc with
  | none => none
  | some (ts, changes) => if now - ts > CACHE_TTL then none else some changes

/-- Model of `fetchRecentChanges`: cached map if valid; otherwise the commit history is
fetched (with retry) and enriched, and any failure of that top-level fetch or
of reading its body yields the empty map (the outer catch). -/
def fetchRecentChanges (now : Nat)
    (cc : Option (Nat × List (String × RecentChange)))
    (net : Nat → FetchOutcome (List GitHubCommit))
    (detail : String → Option GitHubCommit) : List (String × RecentChange) :=
  match getCachedCommits now cc with
  | some cached => cached
  | none =>
    match (fetchWithRetry net 3).result with
    | .ok resp =>
      match resp.body with
      | some commits => buildChanges detail commits
      | none => []
    | .error _ => []

/-- Does this one commit "touch" file `f` as an image file (its detail fetch
succeeded and lists `f` among the changed files)?  If so, the entry the
specification says `f` should carry from this commit. -/
def touchOne (detail : String → Option GitHubCommit) (c : GitHubCommit)
    (f : String) : Option RecentChange :=
  match detail c.sha with
  | some d =>
    match d.files with
    | some fs =>
      if isImageFile f && fs.any (fun file => file.filename == f) then
        some ⟨f, c.date, firstLine c.message⟩
      else none
    | none => none
  | none => none

/-- The specification's description of the per-file entry: the
first-encountered commit among the first 20 whose detail lists the file as a
changed image file, carrying that commit's date and first message line. -/
def firstCommitTouching (detail : String → Option GitHubCommit)
    (commits : List GitHubCommit) (f : String) : Option RecentChange :=
  (commits.take 20).findSome? (fun c => touchOne detail c f)

/-- Lookup in the changes map. -/
def lookupChange (m : List (String × RecentChange)) (f : String) :
    Option RecentChange :=
  (m.find? (fun p => p.1 == f)).map Prod.snd

/-! ### The filter / search pipeline (`searchIcons`) -/

/-- The `fileTypeFilter` argument: `'all' | 'png' | 'svg'`. -/
inductive FileType where
  | all
  | png
  | svg
deriving DecidableEq, Repr

/-- The string the source compares `icon.extension` against. -/
def FileType.str : FileType → String
  | .all => "all"
  | .png => "png"
  | .svg => "svg"

/-- A `SearchResult` as the non-empty-query branch returns it: the record,
the fuzzy matcher's relevance score (absent on the empty-query branch) and
its match-position metadata.  Scores are modelled as rationals. -/
structure SearchResult where
  item : IconFile
  score : Option ℚ
  /-- the source's `matches` field -/
  matchData : Option (List (Nat × Nat))
deriving DecidableEq, Repr

/-- The optional predicate one conditional filter step of `searchIcons`
applies: `if (selectedCategory) ... filter(icon.category === selectedCategory)`. -/
def categoryPred (sel : Option String) : Option (IconFile → Bool) :=
  sel.map (fun c => fun i => i.category == c)

/-- The step `if (fileTypeFilter !== 'all') ... filter(icon.extension === fileTypeFilter)`. -/
def fileTypePred (ftf : FileType) : Option (IconFile → Bool) :=
  if ftf = FileType.all then none else some (fun i => i.extension == ftf.str)

/-- The step `if (showNewOnly) ... filter(icon.isNew)`. -/
def newOnlyPred (showNewOnly : Bool) : Option (IconFile → Bool) :=
  if showNewOnly then some (fun i => i.isNew) else none

/-- Apply one optional filter step. -/
def applyOpt (p : Option (IconFile → Bool)) (l : List IconFile) : List IconFile :=
  match p with
  | none => l
  | some pred => l.filter pred

/-- The three filter steps of `searchIcons`, in source order. -/
def applyFilters (icons : List IconFile) (sel : Option String) (ftf : FileType)
    (showNewOnly : Bool) : List IconFile :=
  applyOpt (newOnlyPred showNewOnly) (applyOpt (fileTypePred ftf) (applyOpt (categoryPred sel) icons))

/-- The empty-query comparator, as `comparator(a,b) ≤ 0`: new records first,
then ascending by filename. -/
def emptySortLE (a b : IconFile) : Bool :=
  if a.isNew == b.isNew then charListLE a.filename.data b.filename.data else a.isNew

/-- The tie-break comparator of the non-empty-query branch, returning the
JavaScript comparator's value: prefer the `isNew` record when the relevance
scores differ by less than 0.1, otherwise report a tie (0). -/
def tieCmp (a b : SearchResult) : Int :=
  let sa := a.score.getD 0
  let sb := b.score.getD 0
  if |sa - sb| < 1 / 10 ∧ a.item.isNew ≠ b.item.isNew then
    if a.item.isNew then -1 else 1
  else 0

/-- The tie-break comparator as a boolean order (`comparator(a,b) ≤ 0`). -/
def tieLE (a b : SearchResult) : Bool :=
  decide (tieCmp a b ≤ 0)

/-- Model of `searchIcons` (later revision).  The third-party fuzzy matcher
(`new Fuse(filtered, fuseOptions).search(query)`) is passed in as the
function `fuse` from the filtered records and the query to its ranked
result list. -/
def searchIcons (fuse : List IconFile → String → List SearchResult)
    (icons : List IconFile) (searchQuery : String) (sel : Option String)
    (ftf : FileType) (showNewOnly : Bool) : List SearchResult :=
  let filtered := applyFilters icons sel ftf showNewOnly
  if allWhitespace searchQuery then
    (jsSortBy emptySortLE filtered).map
      (fun i => { item := i, score := none, matchData := none })
  else
    jsSortBy tieLE (fuse filtered searchQuery)

/-! ### Heap model of `searchIcons` (array aliasing and in-place sort)

JavaScript arrays are mutable references and `Array.prototype.sort` mutates
its receiver in place, while `Array.prototype.filter` and the spread
`[...a]` allocate fresh arrays.  To state that `searchIcons` never mutates
the caller's array, the function is re-played over an explicit heap of
arrays: references are indices, allocation appends, and the sort step
overwrites its receiver cell.  Record objects are only ever read by the
source (no field assignment occurs in `searchIcons`), so records stay plain
values. -/

/-- The heap of icon arrays; a reference is an index into the list. -/
abbrev Heap := List (List IconFile)

/-- Read an array from the heap. -/
def readRef (h : Heap) (r : Nat) : List IconFile :=
  h.getD r []

/-- One conditional filter step over the heap: `filtered = filtered.filter(p)`
allocates a fresh array; with no predicate the alias is kept. -/
def filterStepHeap (p : Option (IconFile → Bool)) (h : Heap) (r : Nat) :
    Heap × Nat :=
  match p with
  | none => (h, r)
  | some pred => (h ++ [(readRef h r).filter pred], h.length)

/-- In-place `sort` of the array behind reference `r`. -/
def sortRefAt (le : IconFile → IconFile → Bool) (h : Heap) (r : Nat) : Heap :=
  h.set r (jsSortBy le (readRef h r))

/-- Model of `searchIcons` re-played over the heap: the caller's records live behind
reference `r`.  The empty-query branch copies the filtered array with the
spread `[...filtered]` (a fresh allocation) and sorts that copy in place;
the non-empty branch sorts the fresh array the fuzzy matcher returned. -/
def searchIconsHeap (fuse : List IconFile → String → List SearchResult)
    (h : Heap) (r : Nat) (searchQuery : String) (sel : Option String)
    (ftf : FileType) (showNewOnly : Bool) : List SearchResult × Heap :=
  let s1 := filterStepHeap (categoryPred sel) h r
  let s2 := filterStepHeap (fileTypePred ftf) s1.1 s1.2
  let s3 := filterStepHeap (newOnlyPred showNewOnly) s2.1 s2.2
  let h3 := s3.1
  let fr := s3.2
  if allWhitespace searchQuery then
    let h4 := h3 ++ [readRef h3 fr]
    let sr := h3.length
    let h5 := sortRefAt emptySortLE h4 sr
    ((readRef h5 sr).map (fun i => { item := i, score := none, matchData := none }), h5)
  else
    (jsSortBy tieLE (fuse (readRef h3 fr) searchQuery), h3)

/-! ### Claim C3: legacy / new classification -/

/-- The year-range part of the claimed `isLegacy` condition: the first
`YYYY-YYYY` group's end year lies strictly before the current year. -/
def yearEndBefore (currentYear : Nat) (path : String) : Bool :=
  match firstYearEnd path.data with
  | some endYear => decide (endYear < currentYear)
  | none => false

theorem strIncludes_zzlegacy (s : String) :
    strIncludes s "zzlegacy" = true → strIncludes s "legacy" = true := by
  intro h
  have hsplit : "zzlegacy".data = "zz".data ++ "legacy".data := rfl
  rw [strIncludes, hsplit] at h
  exact hasInfix_mono "zz".data "legacy".data s.data h

theorem isLegacyIcon_eq_spec (currentYear : Nat) (path : String) :
    isLegacyIcon currentYear path =
      (strIncludes (lowerStr path) "legacy" || yearEndBefore currentYear path) := by
  cases hB : strIncludes (lowerStr path) "legacy" with
  | true => simp [isLegacyIcon, hB]
  | false =>
    have hA : strIncludes (lowerStr path) "zzlegacy" = false := by
      cases hA : strIncludes (lowerStr path) "zzlegacy" with
      | true => rw [strIncludes_zzlegacy _ hA] at hB; exact hB
      | false => rfl
    simp [isLegacyIcon, hA, hB, yearEndBefore]

/-- Claim C3: every record parsed from a listing entry has `isLegacy` true
exactly when its path contains a case-insensitive "legacy" substring or the
first `YYYY-YYYY` group in the path ends strictly before the current
calendar year (later groups being ignored, since the regex match is the
leftmost one), and its `isNew` is the negation of its `isLegacy`. -/
theorem parsed_isLegacy_iff (currentYear : Nat) (tree : GitHubTreeResponse)
    (rec : IconFile) (h : rec ∈ parseIconFiles currentYear tree) :
    rec.isLegacy =
      (strIncludes (lowerStr rec.path) "legacy" || yearEndBefore currentYear rec.path) ∧
    rec.isNew = !rec.isLegacy := by
  simp only [parseIconFiles, List.mem_map] at h
  obtain ⟨item, -, rfl⟩ := h
  exact ⟨isLegacyIcon_eq_spec currentYear item.path, rfl⟩

def treeC3 : GitHubTreeResponse :=
  ⟨[⟨"Teams/2015-2019/Old.png", "blob", some 5⟩]⟩

def recC3 : IconFile :=
  { path := "Teams/2015-2019/Old.png", filename := "Old.png", category := "Teams",
    size := 5,
    rawUrl := "https://raw.githubusercontent.com/loryanstrant/MicrosoftCloudLogos/main/Teams/2015-2019/Old.png",
    isLegacy := true, isNew := false, extension := "png", productName := "old" }

/-- Witness for C3 at a concrete tree and record. -/
theorem parsed_isLegacy_iff_witness :
    recC3.isLegacy =
      (strIncludes (lowerStr recC3.path) "legacy" || yearEndBefore 2026 recC3.path) ∧
    recC3.isNew = !recC3.isLegacy :=
  parsed_isLegacy_iff 2026 treeC3 recC3 (by decide)

/-! ### Claim C1: retry policy of `fetchWithRetry` -/

/-- A response sequence whose first attempt yields a 404 (a non-429 client
error) and whose second attempt succeeds. -/
def netC1 : Nat → FetchOutcome Unit := fun n =>
  if n = 0 then .resp ⟨404, none, none⟩ else .resp ⟨200, some (), none⟩

/-- Claim C1 (code bug): a non-429 4xx response does NOT make the call fail
immediately.  The `throw` for client errors stands inside the `try` block, so
the function's own `catch` swallows it and the loop retries: after a 404 on
the first attempt the function sleeps 1000 ms, makes a second attempt, and
here returns that attempt's 200 response instead of failing. -/
theorem fetchWithRetry_404_retries :
    (fetchWithRetry netC1 3).attempts = 2 ∧
    (fetchWithRetry netC1 3).result = .ok ⟨200, some (), none⟩ ∧
    (fetchWithRetry netC1 3).delays = [1000] :=
  ⟨rfl, rfl, rfl⟩

/-! ### Claim C2: exhausted retries fall back to the cache -/

theorem fetchWithRetryGo_error (net : Nat → FetchOutcome β) (k : Nat)
    (hfail : ∀ n, attemptFails (net n)) :
    ∀ (rem attempt : Nat) (lastE : Option String) (ds : List Nat),
      ∃ msg, (fetchWithRetryGo net k rem attempt lastE ds).result = .error msg := by
  intro rem
  induction rem with
  | zero => intro attempt lastE ds; exact ⟨_, rfl⟩
  | succ rem ih =>
    intro attempt lastE ds
    have hf := hfail attempt
    match hnet : net attempt with
    | .netError msg =>
      simp only [fetchWithRetryGo, tryOnce, hnet]
      exact ih _ _ _
    | .resp r =>
      rw [hnet] at hf
      simp only [attemptFails] at hf
      have h304 : (r.status == 304) = false := by simp [hf.2]
      by_cases h4 : 400 ≤ r.status ∧ r.status < 500 ∧ r.status ≠ 429
      · have htry : tryOnce (net attempt) =
            TryStep.thrown ("GitHub API error: " ++ toString r.status) := by
          simp [tryOnce, hnet, hf.1, h304, h4]
        simp only [fetchWithRetryGo, htry]
        exact ih _ _ _
      · have htry : tryOnce (net attempt) =
            TryStep.noted ("GitHub API error: " ++ toString r.status) := by
          simp [tryOnce, hnet, hf.1, h304, h4]
        simp only [fetchWithRetryGo, htry]
        exact ih _ _ _

theorem getCachedData_some (now : Nat) (st : LocalStorage) (d : CachedData)
    (hd : st.cache = some d) :
    getCachedData now st =
      (some d, decide (now - d.timestamp > CACHE_TTL) || st.forceRevalidate) := by
  unfold getCachedData
  rw [hd]

theorem getCachedData_none (now : Nat) (st : LocalStorage) (h : st.cache = none) :
    getCachedData now st = (none, true) := by
  unfold getCachedData
  rw [h]

theorem fetchIcons_eq (now currentYear : Nat) (st : LocalStorage)
    (net : Nat → FetchOutcome GitHubTreeResponse) :
    fetchIcons now currentYear st net =
      match getCachedData now st with
      | (some d, false) => ⟨.ok d.icons, st, 0⟩
      | (cached, _) => fetchIconsNetwork now currentYear st cached net := rfl

/-- Claim C2: when every network attempt fails, `fetchIcons` returns the prior
cache envelope's icon list if one exists (even an expired one), and otherwise
ends in a thrown error, distinguishable from any successful result. -/
theorem fetchIcons_retry_exhausted (now currentYear : Nat) (st : LocalStorage)
    (net : Nat → FetchOutcome GitHubTreeResponse)
    (hfail : ∀ n, attemptFails (net n)) :
    (∀ d, st.cache = some d →
      (fetchIcons now currentYear st net).result = .ok d.icons) ∧
    (st.cache = none →
      ∃ msg, (fetchIcons now currentYear st net).result = .error msg) := by
  obtain ⟨msg, hres⟩ := fetchWithRetryGo_error net 3 hfail 3 0 none []
  have hres2 : (fetchWithRetry net 3).result = .error msg := hres
  constructor
  · intro d hd
    rw [fetchIcons_eq, getCachedData_some now st d hd]
    cases hb : (decide (now - d.timestamp > CACHE_TTL) || st.forceRevalidate) with
    | false => rfl
    | true =>
      show (fetchIconsNetwork now currentYear st (some d) net).result = .ok d.icons
      unfold fetchIconsNetwork
      simp only [hres2]
  · intro h0
    rw [fetchIcons_eq, getCachedData_none now st h0]
    show ∃ m, (fetchIconsNetwork now currentYear st none net).result = .error m
    unfold fetchIconsNetwork
    simp only [hres2]
    exact ⟨msg, rfl⟩

def iconW : IconFile :=
  { path := "SharePoint/icon.svg", filename := "icon.svg", category := "SharePoint",
    size := 0,
    rawUrl := "https://raw.githubusercontent.com/loryanstrant/MicrosoftCloudLogos/main/SharePoint/icon.svg",
    isLegacy := false, isNew := true, extension := "svg", productName := "icon" }

def stC2 : LocalStorage := ⟨some ⟨0, [iconW], none⟩, true, true⟩

def netDown : Nat → FetchOutcome GitHubTreeResponse := fun _ => .netError "offline"

/-- Witness for C2: with every attempt failing and a populated cache, the
cached list comes back. -/
theorem fetchIcons_retry_exhausted_witness :
    (fetchIcons 9 2026 stC2 netDown).result = .ok [iconW] :=
  (fetchIcons_retry_exhausted 9 2026 stC2 netDown (fun _ => True.intro)).1
    ⟨0, [iconW], none⟩ rfl

/-! ### Claim C5: 304 handling refreshes the timestamp, keeps the etag -/

/-- Claim C5: on a 304 response with a cache envelope present (and the store
writable), `fetchIcons` returns exactly the cached icon list, writes back an
envelope whose timestamp is the current time, whose icons are the cached
ones, and whose etag equals the prior etag, using a single network request. -/
theorem fetchIcons_304_refresh (now currentYear : Nat) (st : LocalStorage)
    (d : CachedData) (net : Nat → FetchOutcome GitHubTreeResponse)
    (r : HttpResponse GitHubTreeResponse)
    (hd : st.cache = some d)
    (hrev : (decide (now - d.timestamp > CACHE_TTL) || st.forceRevalidate) = true)
    (hnet : net 0 = .resp r) (h304 : r.status = 304) (hw : st.writable = true) :
    (fetchIcons now currentYear st net).result = .ok d.icons ∧
    (fetchIcons now currentYear st net).store.cache = some ⟨now, d.icons, d.etag⟩ ∧
    (fetchIcons now currentYear st net).requests = 1 := by
  have hok : (respOk r.status || r.status == 304) = true := by
    rw [h304]; rfl
  have htry : tryOnce (net 0) = TryStep.done r := by
    simp [tryOnce, hnet, hok]
  have hretry : fetchWithRetry net 3 = ⟨.ok r, 1, []⟩ := by
    simp [fetchWithRetry, fetchWithRetryGo, htry]
  rw [fetchIcons_eq, getCachedData_some now st d hd, hrev]
  show (fetchIconsNetwork now currentYear st (some d) net).result = .ok d.icons ∧ _
  unfold fetchIconsNetwork
  simp only [hretry, h304, if_pos rfl, setCachedData, hw]
  refine ⟨?_, ?_, ?_⟩ <;> trivial

def stC5 : LocalStorage := ⟨some ⟨0, [iconW], some "etag-1"⟩, true, true⟩

def net304 : Nat → FetchOutcome GitHubTreeResponse := fun _ => .resp ⟨304, none, none⟩

/-- Witness for C5 at a concrete store and 304 response. -/
theorem fetchIcons_304_refresh_witness :
    (fetchIcons 77 2026 stC5 net304).result = .ok [iconW] ∧
    (fetchIcons 77 2026 stC5 net304).store.cache =
      some ⟨77, [iconW], some "etag-1"⟩ ∧
    (fetchIcons 77 2026 stC5 net304).requests = 1 :=
  fetchIcons_304_refresh 77 2026 stC5 ⟨0, [iconW], some "etag-1"⟩ net304
    ⟨304, none, none⟩ rfl (by decide) rfl rfl rfl

/-! ### Claim C6: cache round trip without network -/

/-- Claim C6: after a successful `setCachedData` write, a `fetchIcons` call
before TTL expiry returns exactly the written records and makes zero network
requests. -/
theorem fetchIcons_cache_roundtrip (t now currentYear : Nat)
    (icons : List IconFile) (etag : Option String) (st : LocalStorage)
    (net : Nat → FetchOutcome GitHubTreeResponse)
    (hw : st.writable = true) (hfresh : now - t ≤ CACHE_TTL) :
    (fetchIcons now currentYear (setCachedData t icons etag st) net).result = .ok icons ∧
    (fetchIcons now currentYear (setCachedData t icons etag st) net).requests = 0 := by
  have hset : setCachedData t icons etag st =
      { st with cache := some ⟨t, icons, etag⟩, forceRevalidate := false } := by
    simp [setCachedData, hw]
  have hdec : decide (now - t > CACHE_TTL) = false :=
    decide_eq_false (Nat.not_lt.mpr hfresh)
  rw [hset, fetchIcons_eq,
    getCachedData_some now _ ⟨t, icons, etag⟩ rfl]
  simp only [hdec, Bool.or_false]
  constructor <;> trivial

/-- Witness for C6 at a concrete store and record list. -/
theorem fetchIcons_cache_roundtrip_witness :
    (fetchIcons 100 2026 (setCachedData 3 [iconW] (some "e") stC2) netDown).result =
      .ok [iconW] ∧
    (fetchIcons 100 2026 (setCachedData 3 [iconW] (some "e") stC2) netDown).requests = 0 :=
  fetchIcons_cache_roundtrip 3 100 2026 [iconW] (some "e") stC2 netDown rfl (by decide)

/-! ### Claims C4 and C7: the empty-query branch and the filter steps -/

theorem emptySortLE_trans :
    ∀ a b c : IconFile, emptySortLE a b = true → emptySortLE b c = true →
      emptySortLE a c = true := by
  intro a b c hab hbc
  cases ha : a.isNew <;> cases hb : b.isNew <;> cases hc : c.isNew <;>
      simp [emptySortLE, ha, hb, hc] at hab hbc ⊢ <;>
    exact charListLE_trans _ _ _ hab hbc

theorem emptySortLE_total :
    ∀ a b : IconFile, (emptySortLE a b || emptySortLE b a) = true := by
  intro a b
  cases ha : a.isNew <;> cases hb : b.isNew <;>
      simp [emptySortLE, ha, hb] <;>
    simpa using charListLE_total a.filename.data b.filename.data

/-- What one `emptySortLE` step says: new records never follow old ones, and
records agreeing on `isNew` are in ascending filename order. -/
theorem emptySortLE_imp (a b : IconFile) (h : emptySortLE a b = true) :
    (b.isNew = true → a.isNew = true) ∧
    (a.isNew = b.isNew → charListLE a.filename.data b.filename.data = true) := by
  cases ha : a.isNew <;> cases hb : b.isNew <;>
    simp_all [emptySortLE]

/-- On a whitespace-only query, `searchIcons` reduces to the sorted filtered
list (no fuzzy matching involved). -/
theorem searchIcons_empty_branch (fuse : List IconFile → String → List SearchResult)
    (icons : List IconFile) (q : String) (sel : Option String) (ftf : FileType)
    (newOnly : Bool) (hq : allWhitespace q = true) :
    searchIcons fuse icons q sel ftf newOnly =
      (jsSortBy emptySortLE (applyFilters icons sel ftf newOnly)).map
        (fun i => { item := i, score := none, matchData := none }) := by
  simp [searchIcons, hq]

/-- The items of the empty-query result are the sorted filtered records. -/
theorem searchIcons_map_item (fuse : List IconFile → String → List SearchResult)
    (icons : List IconFile) (q : String) (sel : Option String) (ftf : FileType)
    (newOnly : Bool) (hq : allWhitespace q = true) :
    (searchIcons fuse icons q sel ftf newOnly).map (fun r => r.item) =
      jsSortBy emptySortLE (applyFilters icons sel ftf newOnly) := by
  rw [searchIcons_empty_branch fuse icons q sel ftf newOnly hq, List.map_map]
  have hcomp : ((fun r => r.item) ∘ fun i =>
      ({ item := i, score := none, matchData := none } : SearchResult)) =
        fun i => i := rfl
  rw [hcomp]
  exact List.map_id' _

/-- Claim C4: on an empty or whitespace-only query `searchIcons` performs no
fuzzy matching (the result does not depend on the matcher), a whitespace-only
query yields exactly the output of the empty query, the result items are a
permutation of the filtered records, they are ordered with every `isNew`
record before every non-`isNew` record and each group ascending by filename,
and no result carries a score or match metadata. -/
theorem searchIcons_empty_query
    (fuse fuse2 : List IconFile → String → List SearchResult)
    (icons : List IconFile) (q : String) (sel : Option String) (ftf : FileType)
    (newOnly : Bool) (hq : allWhitespace q = true) :
    searchIcons fuse icons q sel ftf newOnly = searchIcons fuse2 icons q sel ftf newOnly ∧
    searchIcons fuse icons q sel ftf newOnly = searchIcons fuse icons "" sel ftf newOnly ∧
    List.Perm ((searchIcons fuse icons q sel ftf newOnly).map (fun r => r.item))
      (applyFilters icons sel ftf newOnly) ∧
    ((searchIcons fuse icons q sel ftf newOnly).map (fun r => r.item)).Pairwise
      (fun a b => (b.isNew = true → a.isNew = true) ∧
        (a.isNew = b.isNew → charListLE a.filename.data b.filename.data = true)) ∧
    (∀ r ∈ searchIcons fuse icons q sel ftf newOnly,
      r.score = none ∧ r.matchData = none) := by
  refine ⟨?_, ?_, ?_, ?_, ?_⟩
  · rw [searchIcons_empty_branch fuse icons q sel ftf newOnly hq,
      searchIcons_empty_branch fuse2 icons q sel ftf newOnly hq]
  · rw [searchIcons_empty_branch fuse icons q sel ftf newOnly hq,
      searchIcons_empty_branch fuse icons "" sel ftf newOnly (by decide)]
  · rw [searchIcons_map_item fuse icons q sel ftf newOnly hq, jsSortBy_eq]
    exact List.mergeSort_perm _ _
  · rw [searchIcons_map_item fuse icons q sel ftf newOnly hq, jsSortBy_eq]
    exact (List.sorted_mergeSort emptySortLE_trans emptySortLE_total _).imp
      (fun h => emptySortLE_imp _ _ h)
  · rw [searchIcons_empty_branch fuse icons q sel ftf newOnly hq]
    intro r hr
    simp only [List.mem_map] at hr
    obtain ⟨i, -, rfl⟩ := hr
    exact ⟨rfl, rfl⟩

def iconsC4 : List IconFile :=
  [{ path := "Azure/A.png", filename := "A.png", category := "Azure", size := 1,
     rawUrl := "https://raw.githubusercontent.com/loryanstrant/MicrosoftCloudLogos/main/Azure/A.png",
     isLegacy := true, isNew := false, extension := "png", productName := "a" },
   { path := "Azure/B.png", filename := "B.png", category := "Azure", size := 2,
     rawUrl := "https://raw.githubusercontent.com/loryanstrant/MicrosoftCloudLogos/main/Azure/B.png",
     isLegacy := false, isNew := true, extension := "png", productName := "b" }]

def fuseNone : List IconFile → String → List SearchResult := fun _ _ => []

/-- Witness for C4: a whitespace-only query behaves as the empty query on a
concrete record list. -/
theorem searchIcons_empty_query_witness :
    searchIcons fuseNone iconsC4 " " none FileType.all false =
      searchIcons fuseNone iconsC4 "" none FileType.all false :=
  (searchIcons_empty_query fuseNone fuseNone iconsC4 " " none FileType.all false
    (by decide)).2.1

/-- Claim C7: with `showNewOnly = true` and no other constraints the result
set is exactly the `isNew` subset; the three filter steps amount to filtering
by the conjunction of their predicates, and any two filter steps commute, so
any application order yields the same result. -/
theorem searchIcons_filter_intersection
    (icons : List IconFile) (fuse : List IconFile → String → List SearchResult) :
    List.Perm ((searchIcons fuse icons "" none FileType.all true).map (fun r => r.item))
      (icons.filter (fun i => i.isNew)) ∧
    (∀ (sel : Option String) (ftf : FileType) (newOnly : Bool),
      applyFilters icons sel ftf newOnly =
        icons.filter (fun i =>
          ((categoryPred sel).elim true (fun p => p i) &&
            (fileTypePred ftf).elim true (fun p => p i)) &&
          (newOnlyPred newOnly).elim true (fun p => p i))) ∧
    (∀ (p q : Option (IconFile → Bool)) (l : List IconFile),
      applyOpt p (applyOpt q l) = applyOpt q (applyOpt p l)) := by
  refine ⟨?_, ?_, ?_⟩
  · rw [searchIcons_map_item fuse icons "" none FileType.all true (by decide)]
    have h1 : applyFilters icons none FileType.all true =
        icons.filter (fun i => i.isNew) := by
      simp [applyFilters, applyOpt, categoryPred, fileTypePred, newOnlyPred]
    rw [h1, jsSortBy_eq]
    exact List.mergeSort_perm _ _
  · intro sel ftf newOnly
    cases sel <;> cases ftf <;> cases newOnly <;>
      simp [applyFilters, applyOpt, categoryPred, fileTypePred, newOnlyPred,
        List.filter_filter, Bool.and_comm, Bool.and_assoc, Bool.and_left_comm]
  · intro p q l
    cases p <;> cases q <;>
      simp [applyOpt, List.filter_filter, Bool.and_comm]

/-! ### Claim C8: the fuzzy-result tie-break reorder -/

/-- Evaluation of the structural merge sort on a three-element list, given the
two comparator calls it makes. -/
theorem jsSortBy_three (le : α → α → Bool) (x y z : α)
    (hxy : le x y = true) (hxz : le x z = false) :
    jsSortBy le [x, y, z] = [z, x, y] := by
  simp [jsSortBy, mergeSortFuel, mergeFuel, hxy, hxz]

def iconOldHalf : IconFile :=
  { path := "Teams/2015-2019/OldTeams.png", filename := "OldTeams.png",
    category := "Teams", size := 3,
    rawUrl := "https://raw.githubusercontent.com/loryanstrant/MicrosoftCloudLogos/main/Teams/2015-2019/OldTeams.png",
    isLegacy := true, isNew := false, extension := "png", productName := "oldteams" }

def iconNewLow : IconFile :=
  { path := "Teams/Teams.png", filename := "Teams.png", category := "Teams", size := 4,
    rawUrl := "https://raw.githubusercontent.com/loryanstrant/MicrosoftCloudLogos/main/Teams/Teams.png",
    isLegacy := false, isNew := true, extension := "png", productName := "teams" }

def iconNewNear : IconFile :=
  { path := "Teams/NewTeams.png", filename := "NewTeams.png", category := "Teams",
    size := 5,
    rawUrl := "https://raw.githubusercontent.com/loryanstrant/MicrosoftCloudLogos/main/Teams/NewTeams.png",
    isLegacy := false, isNew := true, extension := "png", productName := "newteams" }

/-- Ranked result 1: an old record with relevance score 0.5. -/
def resX : SearchResult := { item := iconOldHalf, score := some (1 / 2), matchData := none }

/-- Ranked result 2: a new record with relevance score 0.2. -/
def resY : SearchResult := { item := iconNewLow, score := some (1 / 5), matchData := none }

/-- Ranked result 3: a new record with relevance score 0.45. -/
def resZ : SearchResult := { item := iconNewNear, score := some (9 / 20), matchData := none }

/-- The fuzzy matcher returning the ranking `[resX, resY, resZ]`. -/
def fuseC8 : List IconFile → String → List SearchResult := fun _ _ => [resX, resY, resZ]

/-- Claim C8 counterexample: the sort does NOT only reorder pairs whose scores
differ by less than 0.1.  On the ranking `[resX, resY, resZ]` (scores 0.5,
0.2, 0.45), `resZ` ties with `resX` (gap 0.05) and jumps ahead of it — but in
doing so it also jumps ahead of `resY`, whose score differs from `resZ`'s by
0.25: a pair with score gap at least 0.1 is reordered, so the claim's
"otherwise preserves the original relevance order" fails. -/
theorem searchIcons_tieBreak_counterexample :
    searchIcons fuseC8 [] "q" none FileType.all false = [resZ, resX, resY] ∧
    ¬ |resY.score.getD 0 - resZ.score.getD 0| < 1 / 10 ∧
    resY.item.filename ≠ resZ.item.filename := by
  refine ⟨?_, ?_, ?_⟩
  · have hq : allWhitespace "q" = false := by decide
    have hfuse : fuseC8 (applyFilters [] none FileType.all false) "q" =
        [resX, resY, resZ] := rfl
    have hgapXY : ¬ |(1:ℚ) / 2 - 1 / 5| < 1 / 10 := by
      rw [abs_sub_lt_iff]
      norm_num
    have hgapXZ : |(1:ℚ) / 2 - 9 / 20| < 1 / 10 := by
      rw [abs_sub_lt_iff]
      constructor <;> norm_num
    have hxy : tieLE resX resY = true := by
      simp only [tieLE, tieCmp, resX, resY, iconOldHalf, iconNewLow, Option.getD_some,
        decide_eq_true_eq]
      rw [if_neg (fun h => hgapXY h.1)]
    have hxz : tieLE resX resZ = false := by
      simp only [tieLE, tieCmp, resX, resZ, iconOldHalf, iconNewNear, Option.getD_some,
        decide_eq_false_iff_not]
      rw [if_pos ⟨hgapXZ, Bool.false_ne_true⟩, if_neg Bool.false_ne_true]
      decide
    calc searchIcons fuseC8 [] "q" none FileType.all false
        = jsSortBy tieLE [resX, resY, resZ] := by
          simp only [searchIcons, hq, Bool.false_eq_true, if_false, hfuse]
      _ = [resZ, resX, resY] := jsSortBy_three tieLE resX resY resZ hxy hxz
  · simp only [resY, resZ, Option.getD_some]
    rw [abs_sub_lt_iff]
    norm_num
  · decide

/-- Claim C8 amended: the comparator expresses a preference only for pairs
whose scores differ by less than 0.1 and whose `isNew` flags differ,
preferring the new record; the branch is a stable merge sort with this
comparator, so its output is a permutation of the matcher's ranking, and a
ranking in which every pair in order ties (comparator 0) is returned
unchanged.  It is a partial reordering, not a total new-first sort — but a
record may also move past records whose scores differ by 0.1 or more (see
the counterexample), so relevance order of far-apart pairs is not guaranteed
to be preserved. -/
theorem searchIcons_tieBreak_amended :
    (∀ a b : SearchResult, tieCmp a b ≠ 0 →
      (|a.score.getD 0 - b.score.getD 0| < 1 / 10 ∧ a.item.isNew ≠ b.item.isNew) ∧
      (tieCmp a b = -1 ↔ a.item.isNew = true)) ∧
    (∀ (fuse : List IconFile → String → List SearchResult) (icons : List IconFile)
        (q : String) (sel : Option String) (ftf : FileType) (newOnly : Bool),
      allWhitespace q = false →
      List.Perm (searchIcons fuse icons q sel ftf newOnly)
        (fuse (applyFilters icons sel ftf newOnly) q)) ∧
    (∀ results : List SearchResult,
      results.Pairwise (fun a b => tieCmp a b = 0) →
      jsSortBy tieLE results = results) := by
  refine ⟨?_, ?_, ?_⟩
  · intro a b hne
    by_cases hc : |a.score.getD 0 - b.score.getD 0| < 1 / 10 ∧ a.item.isNew ≠ b.item.isNew
    · refine ⟨hc, ?_⟩
      have ht : tieCmp a b = if a.item.isNew then -1 else 1 := by
        simp only [tieCmp]
        rw [if_pos hc]
      cases hn : a.item.isNew with
      | true => rw [ht, hn]; simp
      | false => rw [ht, hn]; simp
    · exfalso
      apply hne
      simp only [tieCmp]
      rw [if_neg hc]
  · intro fuse icons q sel ftf newOnly hq
    have hbr : searchIcons fuse icons q sel ftf newOnly =
        jsSortBy tieLE (fuse (applyFilters icons sel ftf newOnly) q) := by
      simp only [searchIcons, hq, Bool.false_eq_true, if_false]
    rw [hbr, jsSortBy_eq]
    exact List.mergeSort_perm _ _
  · intro results hp
    have hp2 : results.Pairwise (fun a b => tieLE a b = true) :=
      hp.imp (fun h => by simp [tieLE, h])
    rw [jsSortBy_eq]
    exact List.mergeSort_of_sorted hp2

/-- Witness for the amended C8: a singleton ranking is returned unchanged. -/
theorem searchIcons_tieBreak_amended_witness :
    jsSortBy tieLE [resX] = [resX] :=
  searchIcons_tieBreak_amended.2.2 [resX] (by simp)

/-! ### Claim C9: the recent-changes map -/

theorem mapHas_eq_isSome (m : List (String × RecentChange)) (k : String) :
    mapHas m k = (lookupChange m k).isSome := by
  induction m with
  | nil => rfl
  | cons p m ih =>
    cases hp : p.1 == k with
    | true => simp [mapHas, lookupChange, List.find?_cons, hp]
    | false =>
      simp only [mapHas, lookupChange, List.any_cons, List.find?_cons, hp,
        Bool.false_or] at ih ⊢
      exact ih

theorem mem_keys_iff_mapHas (m : List (String × RecentChange)) (k : String) :
    k ∈ m.map Prod.fst ↔ mapHas m k = true := by
  induction m with
  | nil => simp [mapHas]
  | cons p m ih =>
    simp only [List.map_cons, List.mem_cons, mapHas, List.any_cons,
      Bool.or_eq_true] at ih ⊢
    constructor
    · rintro (h | h)
      · exact Or.inl (beq_iff_eq.mpr h.symm)
      · exact Or.inr (ih.mp h)
    · rintro (h | h)
      · exact Or.inl (beq_iff_eq.mp h).symm
      · exact Or.inr (ih.mpr h)

theorem lookupChange_append_one (m : List (String × RecentChange)) (k : String)
    (v : RecentChange) (f : String) :
    lookupChange (m ++ [(k, v)]) f =
      match lookupChange m f with
      | some w => some w
      | none => if k == f then some v else none := by
  induction m with
  | nil => cases hk : k == f <;> simp [lookupChange, List.find?_cons, hk]
  | cons p m ih =>
    cases hp : p.1 == f with
    | true => simp [lookupChange, List.find?_cons, hp]
    | false =>
      simp only [lookupChange, List.cons_append, List.find?_cons, hp] at ih ⊢
      exact ih

theorem lookupChange_record (c : GitHubCommit) (f : String) :
    ∀ (fs : List CommitFile) (acc : List (String × RecentChange)),
      lookupChange (recordCommitFiles c acc fs) f =
        match lookupChange acc f with
        | some w => some w
        | none =>
          if isImageFile f && fs.any (fun file => file.filename == f) then
            some ⟨f, c.date, firstLine c.message⟩
          else none := by
  intro fs
  induction fs with
  | nil =>
    intro acc
    have hrec : recordCommitFiles c acc [] = acc := rfl
    rw [hrec]
    cases hl : lookupChange acc f <;> simp [hl]
  | cons file fs ih =>
    intro acc
    have hstep : recordCommitFiles c acc (file :: fs) =
        recordCommitFiles c
          (if isImageFile file.filename && !mapHas acc file.filename then
            acc ++ [(file.filename, ⟨file.filename, c.date, firstLine c.message⟩)]
          else acc) fs := by
      simp [recordCommitFiles]
    rw [hstep, ih]
    cases hff : file.filename == f with
    | false =>
      have hacc : lookupChange
          (if isImageFile file.filename && !mapHas acc file.filename then
            acc ++ [(file.filename, ⟨file.filename, c.date, firstLine c.message⟩)]
          else acc) f = lookupChange acc f := by
        by_cases hg : (isImageFile file.filename && !mapHas acc file.filename) = true
        · rw [if_pos hg, lookupChange_append_one]
          cases hl : lookupChange acc f <;> simp [hl, hff]
        · rw [if_neg hg]
      rw [hacc]
      cases hl : lookupChange acc f <;> simp [hl, hff]
    | true =>
      have hf : file.filename = f := by simpa using hff
      by_cases hIm : isImageFile file.filename = true
      · by_cases hHas : mapHas acc file.filename = true
        · rw [if_neg (show ¬ ((isImageFile file.filename &&
              !mapHas acc file.filename) = true) by simp [hHas])]
          have hsome : (lookupChange acc f).isSome = true := by
            rw [← mapHas_eq_isSome, ← hf]
            exact hHas
          obtain ⟨w, hw⟩ := Option.isSome_iff_exists.mp hsome
          rw [hw]
        · rw [if_pos (show (isImageFile file.filename &&
              !mapHas acc file.filename) = true by
                simp only [Bool.and_eq_true, Bool.not_eq_true']
                exact ⟨hIm, by simpa using hHas⟩)]
          have hHasF : mapHas acc file.filename = false := by simpa using hHas
          have hnone : lookupChange acc f = none := by
            have h2 := mapHas_eq_isSome acc file.filename
            rw [hHasF, hf] at h2
            cases hl : lookupChange acc f
            · rfl
            · rw [hl] at h2
              simp at h2
          rw [lookupChange_append_one, hnone]
          have hImf : isImageFile f = true := hf ▸ hIm
          simp [hff, hf, hImf]
      · rw [if_neg (show ¬ ((isImageFile file.filename &&
            !mapHas acc file.filename) = true) by simp [hIm])]
        have hImf : isImageFile f = false := by
          rw [← hf]
          simpa using hIm
        cases hl : lookupChange acc f <;> simp [hl, hImf]

theorem lookupChange_processCommit (detail : String → Option GitHubCommit)
    (c : GitHubCommit) (f : String) (acc : List (String × RecentChange)) :
    lookupChange (processCommit detail acc c) f =
      match lookupChange acc f with
      | some w => some w
      | none => touchOne detail c f := by
  cases hd : detail c.sha with
  | none =>
    simp only [processCommit, touchOne, hd]
    cases hl : lookupChange acc f <;> simp [hl]
  | some d =>
    cases hdf : d.files with
    | none =>
      simp only [processCommit, touchOne, hd, hdf]
      cases hl : lookupChange acc f <;> simp [hl]
    | some fs =>
      simp only [processCommit, touchOne, hd, hdf]
      exact lookupChange_record c f fs acc

theorem lookupChange_foldl (detail : String → Option GitHubCommit) (f : String) :
    ∀ (commits : List GitHubCommit) (acc : List (String × RecentChange)),
      lookupChange (commits.foldl (processCommit detail) acc) f =
        match lookupChange acc f with
        | some w => some w
        | none => commits.findSome? (fun c => touchOne detail c f) := by
  intro commits
  induction commits with
  | nil =>
    intro acc
    cases hl : lookupChange acc f <;> simp [hl]
  | cons c cs ih =>
    intro acc
    simp only [List.foldl_cons]
    rw [ih (processCommit detail acc c), lookupChange_processCommit]
    cases hl : lookupChange acc f with
    | some w => simp
    | none =>
      cases ht : touchOne detail c f with
      | some v => simp [List.findSome?_cons, ht]
      | none => simp [List.findSome?_cons, ht]

theorem lookupChange_buildChanges (detail : String → Option GitHubCommit)
    (commits : List GitHubCommit) (f : String) :
    lookupChange (buildChanges detail commits) f =
      firstCommitTouching detail commits f := by
  unfold buildChanges firstCommitTouching
  rw [lookupChange_foldl]
  simp [lookupChange]

theorem nodupKeys_record (c : GitHubCommit) :
    ∀ (fs : List CommitFile) (acc : List (String × RecentChange)),
      (acc.map Prod.fst).Nodup → ((recordCommitFiles c acc fs).map Prod.fst).Nodup := by
  intro fs
  induction fs with
  | nil => intro acc h; exact h
  | cons file fs ih =>
    intro acc h
    have hstep : recordCommitFiles c acc (file :: fs) =
        recordCommitFiles c
          (if isImageFile file.filename && !mapHas acc file.filename then
            acc ++ [(file.filename, ⟨file.filename, c.date, firstLine c.message⟩)]
          else acc) fs := by
      simp [recordCommitFiles]
    rw [hstep]
    apply ih
    by_cases hg : (isImageFile file.filename && !mapHas acc file.filename) = true
    · rw [if_pos hg]
      have hHas : mapHas acc file.filename = false := by
        cases hh : mapHas acc file.filename
        · rfl
        · rw [hh] at hg; simp at hg
      have hnotmem : file.filename ∉ acc.map Prod.fst := by
        rw [mem_keys_iff_mapHas, hHas]
        simp
      simp only [List.map_append, List.map_cons, List.map_nil]
      rw [List.nodup_append]
      exact ⟨h, List.nodup_singleton _, by simpa using hnotmem⟩
    · rw [if_neg hg]
      exact h

theorem nodupKeys_processCommit (detail : String → Option GitHubCommit)
    (c : GitHubCommit) (acc : List (String × RecentChange))
    (h : (acc.map Prod.fst).Nodup) :
    ((processCommit detail acc c).map Prod.fst).Nodup := by
  cases hd : detail c.sha with
  | none => simpa only [processCommit, hd] using h
  | some d =>
    cases hdf : d.files with
    | none => simpa only [processCommit, hd, hdf] using h
    | some fs =>
      simp only [processCommit, hd, hdf]
      exact nodupKeys_record c fs acc h

theorem nodupKeys_foldl (detail : String → Option GitHubCommit) :
    ∀ (commits : List GitHubCommit) (acc : List (String × RecentChange)),
      (acc.map Prod.fst).Nodup →
      ((commits.foldl (processCommit detail) acc).map Prod.fst).Nodup := by
  intro commits
  induction commits with
  | nil => intro acc h; exact h
  | cons c cs ih =>
    intro acc h
    simp only [List.foldl_cons]
    exact ih _ (nodupKeys_processCommit detail c acc h)

/-- Claim C9: with no valid commits cache, (i) any failure of the top-level
history fetch yields the empty map rather than an error; (ii) the returned
map never holds two entries with the same filename; (iii) when the history
fetch succeeds with a parsed commit list, the entry under each filename is
exactly the specification's "first-encountered commit among the first 20
whose detail lists the file as a changed image", carrying that commit's date
and first message line — commits past the first 20 and later occurrences of
a filename are ignored. -/
theorem fetchRecentChanges_spec :
    (∀ (now : Nat) (net : Nat → FetchOutcome (List GitHubCommit))
        (detail : String → Option GitHubCommit),
      (∀ n, attemptFails (net n)) → fetchRecentChanges now none net detail = []) ∧
    (∀ (now : Nat) (net : Nat → FetchOutcome (List GitHubCommit))
        (detail : String → Option GitHubCommit),
      ((fetchRecentChanges now none net detail).map Prod.fst).Nodup) ∧
    (∀ (now : Nat) (net : Nat → FetchOutcome (List GitHubCommit))
        (detail : String → Option GitHubCommit)
        (r : HttpResponse (List GitHubCommit)) (commits : List GitHubCommit),
      (fetchWithRetry net 3).result = .ok r → r.body = some commits →
      ∀ f, lookupChange (fetchRecentChanges now none net detail) f =
        firstCommitTouching detail commits f) := by
  have hnet : ∀ (now : Nat) (net : Nat → FetchOutcome (List GitHubCommit))
      (detail : String → Option GitHubCommit),
      fetchRecentChanges now none net detail =
        match (fetchWithRetry net 3).result with
        | .ok resp =>
          match resp.body with
          | some commits => buildChanges detail commits
          | none => []
        | .error _ => [] := fun _ _ _ => rfl
  refine ⟨?_, ?_, ?_⟩
  · intro now net detail hfail
    obtain ⟨msg, hres⟩ := fetchWithRetryGo_error net 3 hfail 3 0 none []
    have hres2 : (fetchWithRetry net 3).result = .error msg := hres
    rw [hnet, hres2]
  · intro now net detail
    rw [hnet]
    cases hres : (fetchWithRetry net 3).result with
    | error e => simp
    | ok resp =>
      show (List.map Prod.fst
          (match resp.body with
          | some commits => buildChanges detail commits
          | none => [])).Nodup
      cases hb : resp.body with
      | none => simp
      | some commits =>
        exact nodupKeys_foldl detail (commits.take 20) [] (by simp)
  · intro now net detail r commits hok hbody f
    rw [hnet, hok]
    show lookupChange
        (match r.body with
        | some commits => buildChanges detail commits
        | none => []) f =
      firstCommitTouching detail commits f
    rw [hbody]
    exact lookupChange_buildChanges detail commits f

def netHistDown : Nat → FetchOutcome (List GitHubCommit) := fun _ => .netError "offline"

def detailNone : String → Option GitHubCommit := fun _ => none

/-- Witness for C9: a failing history fetch yields the empty map. -/
theorem fetchRecentChanges_spec_witness :
    fetchRecentChanges 4 none netHistDown detailNone = [] :=
  fetchRecentChanges_spec.1 4 netHistDown detailNone (fun _ => True.intro)

/-! ### Claim C10: `searchIcons` never mutates the caller's array -/

/-- On a non-whitespace query, `searchIcons` reduces to the sorted fuzzy
results of the filtered records. -/
theorem searchIcons_ranked_branch (fuse : List IconFile → String → List SearchResult)
    (icons : List IconFile) (q : String) (sel : Option String) (ftf : FileType)
    (newOnly : Bool) (hq : allWhitespace q = false) :
    searchIcons fuse icons q sel ftf newOnly =
      jsSortBy tieLE (fuse (applyFilters icons sel ftf newOnly) q) := by
  simp only [searchIcons, hq, Bool.false_eq_true, if_false]

theorem readRef_append_lt (h : Heap) (l : List IconFile) (i : Nat)
    (hi : i < h.length) : readRef (h ++ [l]) i = readRef h i := by
  simp only [readRef, List.getD_eq_getElem?_getD]
  rw [List.getElem?_append_left hi]

theorem readRef_append_self (h : Heap) (l : List IconFile) :
    readRef (h ++ [l]) h.length = l := by
  simp only [readRef, List.getD_eq_getElem?_getD]
  rw [List.getElem?_append_right (Nat.le_refl _)]
  simp

theorem set_append_last (h : Heap) (c x : List IconFile) :
    (h ++ [c]).set h.length x = h ++ [x] := by
  rw [List.set_append_right _ _ (Nat.le_refl _)]
  simp

theorem filterStepHeap_len (p : Option (IconFile → Bool)) (h : Heap) (r : Nat)
    (h2 : Heap) (r2 : Nat) (he : filterStepHeap p h r = (h2, r2)) :
    h.length ≤ h2.length := by
  cases p with
  | none =>
    simp only [filterStepHeap] at he
    injection he with e1 e2
    subst e1
    exact Nat.le_refl _
  | some pred =>
    simp only [filterStepHeap] at he
    injection he with e1 e2
    subst e1
    simp

theorem filterStepHeap_pres (p : Option (IconFile → Bool)) (h : Heap) (r : Nat)
    (h2 : Heap) (r2 : Nat) (he : filterStepHeap p h r = (h2, r2))
    (i : Nat) (hi : i < h.length) : readRef h2 i = readRef h i := by
  cases p with
  | none =>
    simp only [filterStepHeap] at he
    injection he with e1 e2
    subst e1
    rfl
  | some pred =>
    simp only [filterStepHeap] at he
    injection he with e1 e2
    subst e1
    exact readRef_append_lt h _ i hi

theorem filterStepHeap_read (p : Option (IconFile → Bool)) (h : Heap) (r : Nat)
    (h2 : Heap) (r2 : Nat) (he : filterStepHeap p h r = (h2, r2)) :
    readRef h2 r2 = applyOpt p (readRef h r) := by
  cases p with
  | none =>
    simp only [filterStepHeap] at he
    injection he with e1 e2
    subst e1
    subst e2
    rfl
  | some pred =>
    simp only [filterStepHeap] at he
    injection he with e1 e2
    subst e1
    subst e2
    exact readRef_append_self h _

/-- Claim C10: replayed over the explicit array heap, `searchIcons` leaves
every pre-existing array — in particular the caller's record array and every
record in it — exactly as it was (the spread `[...filtered]` sorts a fresh
copy and the filter steps allocate new arrays), and it returns the same
result list as the pure function of the input records. -/
theorem searchIconsHeap_frame (fuse : List IconFile → String → List SearchResult)
    (h : Heap) (r : Nat) (q : String) (sel : Option String) (ftf : FileType)
    (newOnly : Bool) :
    (∀ i, i < h.length →
      readRef (searchIconsHeap fuse h r q sel ftf newOnly).2 i = readRef h i) ∧
    (searchIconsHeap fuse h r q sel ftf newOnly).1 =
      searchIcons fuse (readRef h r) q sel ftf newOnly := by
  rcases hc1 : filterStepHeap (categoryPred sel) h r with ⟨h1, r1⟩
  rcases hc2 : filterStepHeap (fileTypePred ftf) h1 r1 with ⟨h2, r2⟩
  rcases hc3 : filterStepHeap (newOnlyPred newOnly) h2 r2 with ⟨h3, r3⟩
  have hl1 := filterStepHeap_len _ _ _ _ _ hc1
  have hl2 := filterStepHeap_len _ _ _ _ _ hc2
  have hl3 := filterStepHeap_len _ _ _ _ _ hc3
  have hp1 := filterStepHeap_pres _ _ _ _ _ hc1
  have hp2 := filterStepHeap_pres _ _ _ _ _ hc2
  have hp3 := filterStepHeap_pres _ _ _ _ _ hc3
  have hread : readRef h3 r3 = applyFilters (readRef h r) sel ftf newOnly := by
    rw [filterStepHeap_read _ _ _ _ _ hc3, filterStepHeap_read _ _ _ _ _ hc2,
      filterStepHeap_read _ _ _ _ _ hc1]
    rfl
  have hpres : ∀ i, i < h.length → readRef h3 i = readRef h i := by
    intro i hi
    rw [hp3 i (lt_of_lt_of_le hi (le_trans hl1 hl2)), hp2 i (lt_of_lt_of_le hi hl1),
      hp1 i hi]
  have hS : searchIconsHeap fuse h r q sel ftf newOnly =
      if allWhitespace q then
        ((readRef (sortRefAt emptySortLE (h3 ++ [readRef h3 r3]) h3.length)
            h3.length).map
          (fun i => { item := i, score := none, matchData := none }),
         sortRefAt emptySortLE (h3 ++ [readRef h3 r3]) h3.length)
      else
        (jsSortBy tieLE (fuse (readRef h3 r3) q), h3) := by
    simp only [searchIconsHeap, hc1, hc2, hc3]
  have hsort : sortRefAt emptySortLE (h3 ++ [readRef h3 r3]) h3.length =
      h3 ++ [jsSortBy emptySortLE (readRef h3 r3)] := by
    unfold sortRefAt
    rw [readRef_append_self, set_append_last]
  by_cases hq : allWhitespace q = true
  · rw [hS, if_pos hq]
    constructor
    · intro i hi
      show readRef (sortRefAt emptySortLE (h3 ++ [readRef h3 r3]) h3.length) i =
        readRef h i
      rw [hsort,
        readRef_append_lt _ _ i (lt_of_lt_of_le hi (le_trans hl1 (le_trans hl2 hl3)))]
      exact hpres i hi
    · show (readRef (sortRefAt emptySortLE (h3 ++ [readRef h3 r3]) h3.length)
          h3.length).map (fun i => { item := i, score := none, matchData := none }) =
        searchIcons fuse (readRef h r) q sel ftf newOnly
      rw [hsort, readRef_append_self, hread,
        searchIcons_empty_branch fuse _ q sel ftf newOnly hq]
  · have hqf : allWhitespace q = false := by simpa using hq
    rw [hS, if_neg hq]
    constructor
    · intro i hi
      exact hpres i hi
    · show jsSortBy tieLE (fuse (readRef h3 r3) q) =
        searchIcons fuse (readRef h r) q sel ftf newOnly
      rw [hread, searchIcons_ranked_branch fuse _ q sel ftf newOnly hqf]

/-- Witness for C10 at a concrete one-array heap. -/
theorem searchIconsHeap_frame_witness :
    readRef (searchIconsHeap fuseNone [iconsC4] 0 "" none FileType.all false).2 0 =
      readRef [iconsC4] 0 ∧
    (searchIconsHeap fuseNone [iconsC4] 0 "" none FileType.all false).1 =
      searchIcons fuseNone (readRef [iconsC4] 0) "" none FileType.all false :=
  ⟨(searchIconsHeap_frame fuseNone [iconsC4] 0 "" none FileType.all false).1 0
      (by decide),
   (searchIconsHeap_frame fuseNone [iconsC4] 0 "" none FileType.all false).2⟩

end Icon365
